import Mathlib

/-!
Verification of the ArduinoTaikoController debug-monitor core
(`src/debug/monitor/data.py` and `src/debug/monitor/monitor.py`).

Modelling conventions:
* Python strings are `List Char`; Python byte strings are `List Nat`.
* Python `float` values are modelled as rationals (`ℚ`); every numeric
  literal accepted by the parser's grammar is a finite decimal, so the
  model is exact, and all rationals are built with `mkRat` so that the
  kernel can evaluate them.
* `datetime` timestamps are modelled as integers (`ℤ`), `timedelta`
  retention as an integer number of the same time units.  The two calls
  to `datetime.now()` inside one append-plus-cleanup step (one for the
  entry's timestamp, one for the cutoff) are modelled as the same
  instant.
* `re.search` with the fixed debug pattern is modelled by a faithful
  leftmost, greedy, backtracking matcher over the pattern's token list
  (the pattern only contains literals, `\s*`, and greedy one-or-more
  character-class capture groups, so backtracking choice points are
  exactly "how many characters each star/group consumes", tried longest
  first, earlier tokens backtracking last — exactly Python's strategy).
-/

/-! ### Python string primitives -/

/-- The characters matched by Python's `\s` (and stripped by `str.strip`)
for text in the Basic Multilingual Plane: ASCII whitespace plus the
Unicode whitespace code points. -/
def pySpaceCodes : List Nat :=
  [0x9, 0xA, 0xB, 0xC, 0xD, 0x1C, 0x1D, 0x1E, 0x1F, 0x20, 0x85, 0xA0, 0x1680,
   0x2000, 0x2001, 0x2002, 0x2003, 0x2004, 0x2005, 0x2006, 0x2007, 0x2008,
   0x2009, 0x200A, 0x2028, 0x2029, 0x202F, 0x205F, 0x3000]

def isPySpace (c : Char) : Bool := pySpaceCodes.contains c.toNat

/-- Python `str.strip()`: remove leading and trailing whitespace. -/
def pyStrip (s : List Char) : List Char :=
  ((s.dropWhile isPySpace).reverse.dropWhile isPySpace).reverse

/-- Python `str.split(sep)` for a one-character separator: empty pieces
are kept, and splitting the empty string gives `[""]`. -/
def pySplit (sep : Char) : List Char → List (List Char)
  | [] => [[]]
  | c :: s' =>
    let r := pySplit sep s'
    if c = sep then [] :: r
    else
      match r with
      | [] => [[c]]
      | h :: t => (c :: h) :: t

/-- A Python list comprehension over fallible element conversions: the
first raised `ValueError` aborts the whole comprehension (`none`). -/
def mapOpt (f : α → Option β) : List α → Option (List β)
  | [] => some []
  | a :: l =>
    match f a, mapOpt f l with
    | some b, some r => some (b :: r)
    | _, _ => none

def allDigits (ds : List Char) : Bool := ds.all Char.isDigit

def digitsVal (ds : List Char) : Nat :=
  ds.foldl (fun a c => a * 10 + (c.toNat - 48)) 0

/-- Python `int(s)` restricted to the character set reachable in this
program (digits, whitespace, an optional sign): strip whitespace, an
optional sign, then a non-empty run of decimal digits.  (Underscore
digit separators cannot occur here: the regex groups feeding `int`
contain only digits, commas and spaces.) -/
def pyInt (s : List Char) : Option Int :=
  match pyStrip s with
  | [] => none
  | '+' :: ds => if ds ≠ [] ∧ allDigits ds then some ((digitsVal ds : Nat) : Int) else none
  | '-' :: ds => if ds ≠ [] ∧ allDigits ds then some (-((digitsVal ds : Nat) : Int)) else none
  | ds => if allDigits ds then some ((digitsVal ds : Nat) : Int) else none

/-- The unsigned part of Python `float(s)`: `digits`, `digits.digits`,
`digits.` or `.digits` (at least one digit overall).  Returned as an
exact rational numerator/denominator pair. -/
def pyFloatCore (u : List Char) : Option (Int × Nat) :=
  match pySplit '.' u with
  | [ds] => if ds ≠ [] ∧ allDigits ds then some ((digitsVal ds : Nat), 1) else none
  | [is, fs] =>
    if (is ≠ [] ∨ fs ≠ []) ∧ allDigits is ∧ allDigits fs then
      some (((digitsVal is * 10 ^ fs.length + digitsVal fs : Nat) : Int), 10 ^ fs.length)
    else none
  | _ => none

/-- Python `float(s)` restricted to the character set reachable in this
program (digits, dot, whitespace, an optional sign); exponents, `inf`
and `nan` need letters, which no feeding regex group admits. -/
def pyFloat (s : List Char) : Option ℚ :=
  match pyStrip s with
  | [] => none
  | '+' :: u => (pyFloatCore u).map (fun p => mkRat p.1 p.2)
  | '-' :: u => (pyFloatCore u).map (fun p => mkRat (-p.1) p.2)
  | u => (pyFloatCore u).map (fun p => mkRat p.1 p.2)

/-! ### A backtracking regex matcher for the debug pattern

The pattern
`RAW:\s*([0-9, ]+)\s*\|\s*SENSOR:\s*([0-9., ]+)\s*\|\s*KEYS:\s*([01, ]+)\s*\|\s*THRESH:\s*([0-9.]+)`
consists only of literal characters, `\s*`, and greedy one-or-more
character-class capture groups, so it is represented as a list of three
kinds of tokens. -/

inductive Tok where
  | lit (c : Char)
  | star (p : Char → Bool)
  | group (idx : Nat) (p : Char → Bool)

/-- Capture list of a match: `(group index, captured characters)` pairs
in the order the groups appear in the pattern. -/
abbrev Caps := List (Nat × List Char)

/-- Backtracking for a greedy `\s*`-style token: `cr` is the reversed
list of characters currently consumed by the star, `rest` the remaining
input.  Try the continuation; on failure give characters back one at a
time (longest match first). -/
def tryStar (k : List Char → Option Caps) : List Char → List Char → Option Caps
  | cr, rest =>
    match k rest with
    | some caps => some caps
    | none =>
      match cr with
      | [] => none
      | c :: cr' => tryStar k cr' (c :: rest)

/-- Backtracking for a greedy `([...]+)` capture group: like `tryStar`
but the group must keep at least one character, and on success its
consumed characters are recorded as capture `i`. -/
def tryGroup (i : Nat) (k : List Char → Option Caps) :
    List Char → List Char → Option Caps
  | cr, rest =>
    match cr with
    | [] => none
    | c :: cr' =>
      match (k rest).map (fun caps => (i, cr.reverse) :: caps) with
      | some caps => some caps
      | none => tryGroup i k cr' (c :: rest)

/-- Match a token list at the start of the input (the unmatched tail of
the input is ignored, as in `re.search`).  Stars and groups consume the
maximal run of their character class first and backtrack by giving
characters back, which is exactly Python's greedy strategy for
single-character-class quantifiers. -/
def matchSeq : List Tok → List Char → Option Caps
  | [], _ => some []
  | Tok.lit _ :: _, [] => none
  | Tok.lit c :: toks, c' :: s' => if c' = c then matchSeq toks s' else none
  | Tok.star p :: toks, s =>
    tryStar (fun t => matchSeq toks t) (s.takeWhile p).reverse (s.dropWhile p)
  | Tok.group i p :: toks, s =>
    tryGroup i (fun t => matchSeq toks t) (s.takeWhile p).reverse (s.dropWhile p)

/-- `re.search`: try to match at position 0, then 1, … (leftmost match
wins). -/
def searchFrom (toks : List Tok) : List Char → Option Caps
  | [] => matchSeq toks []
  | c :: s' =>
    match matchSeq toks (c :: s') with
    | some caps => some caps
    | none => searchFrom toks s'

/-! ### The debug-message pattern and parser (`data.py`) -/

def rawCls (c : Char) : Bool := c.isDigit || c = ',' || c = ' '

def sensorCls (c : Char) : Bool := c.isDigit || c = '.' || c = ',' || c = ' '

def keysCls (c : Char) : Bool := c = '0' || c = '1' || c = ',' || c = ' '

def threshCls (c : Char) : Bool := c.isDigit || c = '.'

def wsTok : Tok := Tok.star isPySpace

def litsOf (w : String) : List Tok := w.data.map Tok.lit

def rawLabel : String := "RAW:"

def sensorLabel : String := "SENSOR:"

def keysLabel : String := "KEYS:"

def threshLabel : String := "THRESH:"

/-- Token list of the regular expression in `parse_debug_message`. -/
def debugToks : List Tok :=
  litsOf rawLabel ++ [wsTok, Tok.group 1 rawCls, wsTok, Tok.lit '|', wsTok] ++
  litsOf sensorLabel ++ [wsTok, Tok.group 2 sensorCls, wsTok, Tok.lit '|', wsTok] ++
  litsOf keysLabel ++ [wsTok, Tok.group 3 keysCls, wsTok, Tok.lit '|', wsTok] ++
  litsOf threshLabel ++ [wsTok, Tok.group 4 threshCls]

/-- Structured representation of one parsed debug frame
(`TaikoDebugData` in `data.py`). -/
structure TaikoDebugData where
  raw_values : List Int
  sensor_values : List ℚ
  key_states : List Bool
  threshold : ℚ
deriving DecidableEq

/-- `message.replace("★", "").strip()` — the sentinel glyph is removed
and the result stripped. -/
def clean_message (message : List Char) : List Char :=
  pyStrip (message.filter fun c => c ≠ '★')

/-- `parse_debug_message` from `data.py`: strip the magic symbol, search
for the pattern, convert the four captured groups (integers, floats,
`== "1"` key flags, threshold float), and reject unless all three lists
have exactly 4 elements.  Any conversion error yields `none`. -/
def parse_debug_message (message : List Char) : Option TaikoDebugData :=
  match searchFrom debugToks (clean_message message) with
  | none => none
  | some caps =>
    match caps.lookup 1, caps.lookup 2, caps.lookup 3, caps.lookup 4 with
    | some raw_str, some sensor_str, some keys_str, some thresh_str =>
      (match mapOpt (fun x => pyInt (pyStrip x)) (pySplit ',' raw_str),
             mapOpt (fun x => pyFloat (pyStrip x)) (pySplit ',' sensor_str),
             pyFloat thresh_str with
       | some raw_values, some sensor_values, some threshold =>
         let key_states := (pySplit ',' keys_str).map (fun x => decide (pyStrip x = ['1']))
         if raw_values.length = 4 ∧ sensor_values.length = 4 ∧ key_states.length = 4 then
           some ⟨raw_values, sensor_values, key_states, threshold⟩
         else none
       | _, _, _ => none)
    | _, _, _, _ => none

/-! ### `TaikoDebugData.__str__` (`data.py`) -/

def decDigitChar (n : Nat) : Char := Char.ofNat (48 + n)

def natCharsAux : Nat → Nat → List Char → List Char
  | 0, _, acc => acc
  | fuel + 1, n, acc =>
    if n < 10 then decDigitChar n :: acc
    else natCharsAux fuel (n / 10) (decDigitChar (n % 10) :: acc)

/-- Decimal digit characters of a natural number (Python `str(n)`). -/
def natChars (n : Nat) : List Char := natCharsAux (n + 1) n []

/-- Python `str` of an integer. -/
def intChars (v : Int) : List Char :=
  if v < 0 then '-' :: natChars v.natAbs else natChars v.toNat

/-- Right-alignment to a minimum field width with spaces, as in the
format specs `{v:3d}` and `{v:6.2f}`. -/
def padLeft (w : Nat) (s : List Char) : List Char :=
  List.replicate (w - s.length) ' ' ++ s

/-- `|q| * 100` rounded half-up, computed on the numerator and
denominator (the rounding of the underlying binary double in `{q:.2f}`
approximated by rational rounding). -/
def fixed2Scaled (q : ℚ) : Nat :=
  (2 * (q.num.natAbs * 100) + q.den) / (2 * q.den)

/-- Fixed-point rendering with 2 decimals of `{q:.2f}`. -/
def fixed2 (q : ℚ) : List Char :=
  (if q.num < 0 then ['-'] else []) ++ natChars (fixed2Scaled q / 100) ++
    ['.'] ++ (if fixed2Scaled q % 100 < 10 then '0' :: natChars (fixed2Scaled q % 100)
      else natChars (fixed2Scaled q % 100))

/-- Python `", ".join`. -/
def joinComma : List (List Char) → List Char
  | [] => []
  | [x] => x
  | x :: y :: t => x ++ ',' :: ' ' :: joinComma (y :: t)

def rawOpen : String := "RAW:["

def sensorOpen : String := "SENSOR:["

def keysOpen : String := "KEYS:["

def closeSp : String := "] "

def threshClose : String := "] THRESH:"

/-- `TaikoDebugData.__str__`: the human-readable rendering
`RAW:[...] SENSOR:[...] KEYS:[..] THRESH:...`. -/
def renderStr (d : TaikoDebugData) : List Char :=
  rawOpen.data ++ joinComma (d.raw_values.map (fun v => padLeft 3 (intChars v))) ++
  closeSp.data ++
  sensorOpen.data ++ joinComma (d.sensor_values.map (fun q => padLeft 6 (fixed2 q))) ++
  closeSp.data ++
  keysOpen.data ++ (d.key_states.map (fun b => if b then 'X' else ' ')) ++
  threshClose.data ++ padLeft 6 (fixed2 d.threshold)

/-! ### UTF-8 decoding (`monitor.py` ingestion loop)

`readline().decode('utf-8', errors='ignore')`: a strict UTF-8 decoder
in which every invalid byte sequence is dropped (maximal-subpart
policy: on an invalid continuation byte, the bytes consumed so far by
the current sequence are skipped and decoding restarts at the offending
byte; an invalid start byte is skipped on its own; a truncated final
sequence is dropped). -/

def utf8Cont (b : Nat) : Bool := 0x80 ≤ b && b ≤ 0xBF

/-- Admissible second byte of a three-byte sequence (excludes overlong
encodings and surrogates). -/
def utf8Cont3 (b b2 : Nat) : Bool :=
  if b = 0xE0 then 0xA0 ≤ b2 && b2 ≤ 0xBF
  else if b = 0xED then 0x80 ≤ b2 && b2 ≤ 0x9F
  else utf8Cont b2

/-- Admissible second byte of a four-byte sequence (excludes overlong
encodings and code points beyond U+10FFFF). -/
def utf8Cont4 (b b2 : Nat) : Bool :=
  if b = 0xF0 then 0x90 ≤ b2 && b2 ≤ 0xBF
  else if b = 0xF4 then 0x80 ≤ b2 && b2 ≤ 0x8F
  else utf8Cont b2

/-- Code point of a two-byte sequence. -/
def utf8Val2 (b b2 : Nat) : Nat := (b - 0xC0) * 64 + (b2 - 0x80)

/-- Code point of a three-byte sequence. -/
def utf8Val3 (b b2 b3 : Nat) : Nat :=
  (b - 0xE0) * 4096 + (b2 - 0x80) * 64 + (b3 - 0x80)

/-- Code point of a four-byte sequence. -/
def utf8Val4 (b b2 b3 b4 : Nat) : Nat :=
  (b - 0xF0) * 262144 + (b2 - 0x80) * 4096 + (b3 - 0x80) * 64 + (b4 - 0x80)

/-- `bytes.decode('utf-8', errors='ignore')`, producing code points.
The four match arms distinguish how much lookahead is available; in each
arm an ASCII byte is emitted, an invalid start byte is skipped, a
multi-byte sequence is decoded when its continuation bytes are valid,
the consumed prefix of a sequence is skipped when a continuation byte is
invalid (decoding restarts at the offending byte), and a truncated final
sequence is dropped. -/
def utf8_decode_ignore : List Nat → List Nat
  | [] => []
  | [b] => if b ≤ 0x7F then [b] else []
  | [b, b2] =>
    if b ≤ 0x7F then b :: utf8_decode_ignore [b2]
    else if b < 0xC2 then utf8_decode_ignore [b2]
    else if b ≤ 0xDF then
      if utf8Cont b2 then [utf8Val2 b b2] else utf8_decode_ignore [b2]
    else if b ≤ 0xEF then
      if utf8Cont3 b b2 then [] else utf8_decode_ignore [b2]
    else if b ≤ 0xF4 then
      if utf8Cont4 b b2 then [] else utf8_decode_ignore [b2]
    else utf8_decode_ignore [b2]
  | [b, b2, b3] =>
    if b ≤ 0x7F then b :: utf8_decode_ignore [b2, b3]
    else if b < 0xC2 then utf8_decode_ignore [b2, b3]
    else if b ≤ 0xDF then
      if utf8Cont b2 then utf8Val2 b b2 :: utf8_decode_ignore [b3]
      else utf8_decode_ignore [b2, b3]
    else if b ≤ 0xEF then
      if utf8Cont3 b b2 then
        if utf8Cont b3 then [utf8Val3 b b2 b3] else utf8_decode_ignore [b3]
      else utf8_decode_ignore [b2, b3]
    else if b ≤ 0xF4 then
      if utf8Cont4 b b2 then
        if utf8Cont b3 then [] else utf8_decode_ignore [b3]
      else utf8_decode_ignore [b2, b3]
    else utf8_decode_ignore [b2, b3]
  | b :: b2 :: b3 :: b4 :: rest =>
    if b ≤ 0x7F then b :: utf8_decode_ignore (b2 :: b3 :: b4 :: rest)
    else if b < 0xC2 then utf8_decode_ignore (b2 :: b3 :: b4 :: rest)
    else if b ≤ 0xDF then
      if utf8Cont b2 then utf8Val2 b b2 :: utf8_decode_ignore (b3 :: b4 :: rest)
      else utf8_decode_ignore (b2 :: b3 :: b4 :: rest)
    else if b ≤ 0xEF then
      if utf8Cont3 b b2 then
        if utf8Cont b3 then utf8Val3 b b2 b3 :: utf8_decode_ignore (b4 :: rest)
        else utf8_decode_ignore (b3 :: b4 :: rest)
      else utf8_decode_ignore (b2 :: b3 :: b4 :: rest)
    else if b ≤ 0xF4 then
      if utf8Cont4 b b2 then
        if utf8Cont b3 then
          if utf8Cont b4 then utf8Val4 b b2 b3 b4 :: utf8_decode_ignore rest
          else utf8_decode_ignore (b4 :: rest)
        else utf8_decode_ignore (b3 :: b4 :: rest)
      else utf8_decode_ignore (b2 :: b3 :: b4 :: rest)
    else utf8_decode_ignore (b2 :: b3 :: b4 :: rest)

/-- Whether a byte string is entirely valid UTF-8. -/
def valid_utf8 : List Nat → Bool
  | [] => true
  | [b] => b ≤ 0x7F
  | [b, b2] =>
    if b ≤ 0x7F then valid_utf8 [b2]
    else if b < 0xC2 then false
    else if b ≤ 0xDF then utf8Cont b2
    else false
  | [b, b2, b3] =>
    if b ≤ 0x7F then valid_utf8 [b2, b3]
    else if b < 0xC2 then false
    else if b ≤ 0xDF then utf8Cont b2 && valid_utf8 [b3]
    else if b ≤ 0xEF then utf8Cont3 b b2 && utf8Cont b3
    else false
  | b :: b2 :: b3 :: b4 :: rest =>
    if b ≤ 0x7F then valid_utf8 (b2 :: b3 :: b4 :: rest)
    else if b < 0xC2 then false
    else if b ≤ 0xDF then utf8Cont b2 && valid_utf8 (b3 :: b4 :: rest)
    else if b ≤ 0xEF then utf8Cont3 b b2 && utf8Cont b3 && valid_utf8 (b4 :: rest)
    else if b ≤ 0xF4 then
      utf8Cont4 b b2 && utf8Cont b3 && utf8Cont b4 && valid_utf8 rest
    else false

/-- One iteration of the ingestion loop body on a line read from the
serial port (`monitor.py`, `_monitor_loop`): decode tolerantly, strip,
skip empty lines, parse; only a successfully parsed line produces a
stored reading. -/
def process_line (bs : List Nat) : Option TaikoDebugData :=
  let line := pyStrip ((utf8_decode_ignore bs).map Char.ofNat)
  if line.isEmpty then none else parse_debug_message line

/-! ### The time-windowed buffer (`monitor.py`) -/

/-- A timestamped entry from the serial monitor (`SerialDataEntry`). -/
structure SerialDataEntry where
  timestamp : Int
  parsed_data : TaikoDebugData
deriving DecidableEq

/-- Index of the first entry with `timestamp >= cutoff_time`, if any —
the `for i, entry in enumerate(...)` loop of `_cleanup_old_data`. -/
def first_keep_index (cutoff : Int) : List SerialDataEntry → Option Nat
  | [] => none
  | e :: t =>
    if cutoff ≤ e.timestamp then some 0
    else (first_keep_index cutoff t).map (fun i => i + 1)

/-- `SerialMonitor._cleanup_old_data`: if the buffer is non-empty, find
the first index with a fresh enough timestamp (default 0 when no entry
qualifies — note the loop leaves `keep_from_index = 0` in that case)
and, when positive, drop everything before it. -/
def cleanup_old_data (now retention : Int) (data : List SerialDataEntry) :
    List SerialDataEntry :=
  if data.isEmpty then data
  else
    let cutoff_time := now - retention
    let keep_from_index := (first_keep_index cutoff_time data).getD 0
    if 0 < keep_from_index then data.drop keep_from_index else data

/-- The append-then-cleanup step of `_monitor_loop`: append the new
entry, then prune with `now` equal to the entry's receipt instant. -/
def monitor_store (retention : Int) (data : List SerialDataEntry)
    (e : SerialDataEntry) : List SerialDataEntry :=
  cleanup_old_data e.timestamp retention (data ++ [e])

/-- A whole sequence of appends. -/
def monitor_store_all (retention : Int) (start : List SerialDataEntry)
    (es : List SerialDataEntry) : List SerialDataEntry :=
  es.foldl (monitor_store retention) start

/-! ### The monitor facade state (`SerialMonitor`) -/

structure MonitorState where
  buf : List SerialDataEntry
  stop_event : Bool
  connected : Bool
  error_message : List Char
deriving DecidableEq

namespace SerialMonitor

/-- `SerialMonitor.__init__`: empty buffer, cleared stop event, not
connected, empty error message. -/
def init_state : MonitorState :=
  { buf := [], stop_event := false, connected := false, error_message := [] }

/-- `SerialMonitor.stop`: set the stop event (the serial handle is
closed and the thread joined, neither of which touches the buffer). -/
def stop (s : MonitorState) : MonitorState := { s with stop_event := true }

/-- The `finally:` block of `_monitor_loop`, run when the background
thread exits after `stop`: clears the connected flag only. -/
def loop_exit (s : MonitorState) : MonitorState := { s with connected := false }

/-- The `data` property: return a copy of the current buffer contents;
the monitor state is untouched. -/
def data (s : MonitorState) : List SerialDataEntry × MonitorState := (s.buf, s)

/-- The `latest_entry` property: `self._data[-1] if self._data else None`. -/
def latest_entry (s : MonitorState) : Option SerialDataEntry := s.buf.getLast?

/-- The ingestion loop appending one parsed entry into the state's
buffer (with cleanup), retention fixed at construction. -/
def store_entry (retention : Int) (s : MonitorState) (e : SerialDataEntry) :
    MonitorState := { s with buf := monitor_store retention s.buf e }

end SerialMonitor

/-! ### Concrete frames used by the claims -/

def c7src : String :=
  "★ RAW: 193, 187, 193, 196 | SENSOR: 1.0000, 4.2000, 1.0000, 3.3000 | KEYS: 1, 1, 1, 1 | THRESH: 0.00"

def c7line : List Char := c7src.data

/-- The reading the spec's concrete scenario expects for `c7src`. -/
def sampleReading : TaikoDebugData :=
  ⟨[193, 187, 193, 196], [1, 21 / 5, 1, 33 / 10], [true, true, true, true], 0⟩

/-- A payload with kernel-evaluable fields, used where buffer proofs
need a concrete reading. -/
def zeroReading : TaikoDebugData := ⟨[0], [mkRat 0 1], [false], mkRat 0 1⟩

def garbageSrc : String := "garbage no markers here"

/-- A frame whose KEYS group has the token `10`: lexically inside
`[01, ]+` but not the single character `0` or `1`. -/
def keys10src : String :=
  "RAW: 1, 2, 3, 4 | SENSOR: 1.0, 2.0, 3.0, 4.0 | KEYS: 10, 1, 1, 1 | THRESH: 0.5"

/-- A frame with a signed RAW token. -/
def negRawSrc : String :=
  "RAW: -5, 187, 193, 196 | SENSOR: 1.0000, 4.2000, 1.0000, 3.3000 | KEYS: 1, 1, 1, 1 | THRESH: 0.00"

/-- An ASCII frame (no sentinel, which `parse_debug_message` does not
require) as raw bytes, with a trailing byte that is invalid in UTF-8. -/
def asciiFrameBytes : List Nat := c7src.data.drop 2 |>.map Char.toNat

def badByteLine : List Nat := asciiFrameBytes ++ [0xFF]


/-! ### Helper facts about the concrete readings -/

/-- `sampleReading` with every rational in kernel-evaluable `mkRat`
form. -/
theorem sampleReading_eq :
    sampleReading =
      ⟨[193, 187, 193, 196], [mkRat 1 1, mkRat 21 5, mkRat 1 1, mkRat 33 10],
       [true, true, true, true], mkRat 0 1⟩ := by
  simp only [sampleReading]
  norm_num [Rat.mkRat_eq_div]

/-! ### Buffer lemmas -/

theorem first_keep_index_eq_none (cutoff : Int) :
    ∀ l : List SerialDataEntry, first_keep_index cutoff l = none →
      ∀ x ∈ l, ¬ (cutoff ≤ x.timestamp) := by
  intro l
  induction l with
  | nil => intro _ x hx; cases hx
  | cons e t ih =>
    intro h x hx
    simp only [first_keep_index] at h
    by_cases hc : cutoff ≤ e.timestamp
    · simp [hc] at h
    · rw [if_neg hc] at h
      rcases List.mem_cons.mp hx with rfl | hx
      · exact hc
      · exact ih (Option.map_eq_none'.mp h) x hx

theorem keep_drop_ge (cutoff : Int) :
    ∀ l : List SerialDataEntry,
      List.Pairwise (fun a b => a.timestamp ≤ b.timestamp) l →
      (∃ e ∈ l, cutoff ≤ e.timestamp) →
      ∀ x ∈ l.drop ((first_keep_index cutoff l).getD 0), cutoff ≤ x.timestamp := by
  intro l
  induction l with
  | nil => intro _ _ x hx; simp at hx
  | cons e t ih =>
    intro hp hw x hx
    simp only [first_keep_index] at hx
    by_cases hc : cutoff ≤ e.timestamp
    · rw [if_pos hc] at hx
      simp only [Option.getD_some, List.drop_zero] at hx
      rcases List.mem_cons.mp hx with rfl | hx
      · exact hc
      · exact le_trans hc ((List.pairwise_cons.mp hp).1 x hx)
    · rw [if_neg hc] at hx
      cases hft : first_keep_index cutoff t with
      | none =>
        exfalso
        rcases hw with ⟨w, hwmem, hwge⟩
        rcases List.mem_cons.mp hwmem with rfl | hwmem
        · exact hc hwge
        · exact first_keep_index_eq_none cutoff t hft w hwmem hwge
      | some j =>
        rw [hft] at hx
        simp only [Option.map_some', Option.getD_some, List.drop_succ_cons] at hx
        have hw' : ∃ w ∈ t, cutoff ≤ w.timestamp := by
          rcases hw with ⟨w, hwmem, hwge⟩
          rcases List.mem_cons.mp hwmem with rfl | hwmem
          · exact absurd hwge hc
          · exact ⟨w, hwmem, hwge⟩
        have := ih (List.pairwise_cons.mp hp).2 hw'
        rw [hft] at this
        exact this x hx

theorem cleanup_eq_drop (now retention : Int) (l : List SerialDataEntry) :
    cleanup_old_data now retention l =
      l.drop ((first_keep_index (now - retention) l).getD 0) := by
  simp only [cleanup_old_data]
  by_cases he : l.isEmpty
  · rw [if_pos he]
    cases l with
    | nil => simp [first_keep_index]
    | cons e t => simp at he
  · rw [if_neg he]
    by_cases hk : 0 < (first_keep_index (now - retention) l).getD 0
    · rw [if_pos hk]
    · rw [if_neg hk, Nat.eq_zero_of_not_pos hk, List.drop_zero]

theorem cleanup_suffix (now retention : Int) (l : List SerialDataEntry) :
    cleanup_old_data now retention l <:+ l := by
  rw [cleanup_eq_drop]; exact List.drop_suffix _ _

theorem suffix_append_same {α : Type _} {l m : List α} (u : List α) (h : l <:+ m) :
    l ++ u <:+ m ++ u := by
  obtain ⟨t, rfl⟩ := h
  exact ⟨t, by rw [List.append_assoc]⟩

theorem monitor_store_suffix (retention : Int) (l : List SerialDataEntry)
    (e : SerialDataEntry) : monitor_store retention l e <:+ l ++ [e] := by
  rw [monitor_store]; exact cleanup_suffix _ _ _

theorem monitor_store_all_suffix (retention : Int) :
    ∀ (es start : List SerialDataEntry),
      monitor_store_all retention start es <:+ start ++ es := by
  intro es
  induction es with
  | nil => intro start; simp [monitor_store_all]
  | cons e es' ih =>
    intro start
    have h1 : monitor_store_all retention start (e :: es') =
        monitor_store_all retention (monitor_store retention start e) es' := by
      simp [monitor_store_all]
    rw [h1]
    have h2 := ih (monitor_store retention start e)
    have h3 : monitor_store retention start e ++ es' <:+ (start ++ [e]) ++ es' :=
      suffix_append_same es' (monitor_store_suffix retention start e)
    have h4 : (start ++ [e]) ++ es' = start ++ (e :: es') := by simp
    exact h4 ▸ h2.trans h3

theorem monitor_store_retention (l : List SerialDataEntry) (e : SerialDataEntry)
    (retention : Int)
    (hp : List.Pairwise (fun a b => a.timestamp ≤ b.timestamp) l)
    (hle : ∀ x ∈ l, x.timestamp ≤ e.timestamp) (hr : 0 ≤ retention) :
    ∀ x ∈ monitor_store retention l e, e.timestamp - retention ≤ x.timestamp := by
  rw [monitor_store, cleanup_eq_drop]
  apply keep_drop_ge
  · rw [List.pairwise_append]
    exact ⟨hp, List.pairwise_singleton _ _, fun a ha b hb => by
      rw [List.mem_singleton] at hb; subst hb; exact hle a ha⟩
  · exact ⟨e, by simp, by linarith⟩

/-- Claim C1: after every append-plus-cleanup with non-decreasing
timestamps and a non-negative retention window, every surviving entry
has `timestamp ≥ now − retention` (`now` being the appended entry's
timestamp) — in particular this covers the state in which all previous
entries are older than the cutoff, since the freshly appended entry
always qualifies; and the concrete scenario: appends at t = 0, 3, 9, 12
with retention 10 leave exactly the t = 3, 9, 12 entries. -/
theorem retention_invariant_after_append :
    (∀ (l : List SerialDataEntry) (e : SerialDataEntry) (retention : Int),
      List.Pairwise (fun a b => a.timestamp ≤ b.timestamp) l →
      (∀ x ∈ l, x.timestamp ≤ e.timestamp) → 0 ≤ retention →
      ∀ x ∈ monitor_store retention l e, e.timestamp - retention ≤ x.timestamp) ∧
    (∀ r0 r3 r9 r12 : TaikoDebugData,
      (monitor_store_all 10 [] [⟨0, r0⟩, ⟨3, r3⟩, ⟨9, r9⟩, ⟨12, r12⟩]).map
          SerialDataEntry.timestamp = [3, 9, 12]) :=
  ⟨monitor_store_retention, fun _ _ _ _ => rfl⟩

/-- Witness for C1: the retention bound instantiated on a concrete
buffer `[t=0]` receiving an append at `t=12` with retention 10: the
entry at `t=12` survives and satisfies the bound. -/
theorem retention_invariant_after_append_witness :
    (12 : Int) - 10 ≤ (SerialDataEntry.mk 12 zeroReading).timestamp :=
  retention_invariant_after_append.1 [⟨0, zeroReading⟩] ⟨12, zeroReading⟩ 10
    (by simp) (by intro x hx; rw [List.mem_singleton] at hx; subst hx; norm_num)
    (by norm_num) ⟨12, zeroReading⟩ (by decide)

/-- Claim C9: every cleanup pass keeps a contiguous suffix of the
pre-cleanup buffer (head-only eviction, no reordering, no interior
drops); the buffer built by any sequence of appends is a suffix of the
arrival sequence; and when arrivals have non-decreasing timestamps the
buffer is sorted in non-decreasing timestamp order at all times. -/
theorem buffer_ordering_head_eviction :
    (∀ (now retention : Int) (l : List SerialDataEntry),
      cleanup_old_data now retention l <:+ l) ∧
    (∀ (retention : Int) (es : List SerialDataEntry),
      monitor_store_all retention [] es <:+ es) ∧
    (∀ (retention : Int) (es : List SerialDataEntry),
      List.Pairwise (fun a b => a.timestamp ≤ b.timestamp) es →
      List.Pairwise (fun a b => a.timestamp ≤ b.timestamp)
        (monitor_store_all retention [] es)) := by
  refine ⟨cleanup_suffix, fun retention es => ?_, fun retention es hp => ?_⟩
  · have := monitor_store_all_suffix retention es []
    simpa using this
  · have h := monitor_store_all_suffix retention es []
    rw [List.nil_append] at h
    exact hp.sublist h.sublist

/-- Witness for C9: sortedness of the buffer after a concrete sorted
append sequence. -/
theorem buffer_ordering_head_eviction_witness :
    List.Pairwise (fun a b => a.timestamp ≤ b.timestamp)
      (monitor_store_all 10 [] [⟨0, zeroReading⟩, ⟨3, zeroReading⟩]) :=
  buffer_ordering_head_eviction.2.2 10 [⟨0, zeroReading⟩, ⟨3, zeroReading⟩]
    (by decide)

/-- Counterexample to claim C4 as stated: an entry appended before
`stop()` is still observable through the `data` snapshot after `stop()`
completes — `stop` does not clear the buffer. -/
theorem stop_retains_buffer :
    (SerialMonitor.data
        (SerialMonitor.stop
          (SerialMonitor.store_entry 10 SerialMonitor.init_state
            ⟨0, zeroReading⟩))).1 ≠ [] := by decide

/-- Claim C4 (amended): the buffer is created empty when the monitor
object is constructed; `stop()` (and the monitored thread's exit path)
leaves the buffer contents untouched, so previously appended entries
remain observable through `data`/`latest_entry` after `stop()`. -/
theorem buffer_lifecycle_amended :
    SerialMonitor.init_state.buf = [] ∧
    (∀ s : MonitorState, (SerialMonitor.stop s).buf = s.buf) ∧
    (∀ s : MonitorState,
      (SerialMonitor.data (SerialMonitor.stop s)).1 = (SerialMonitor.data s).1) ∧
    (∀ s : MonitorState,
      SerialMonitor.latest_entry (SerialMonitor.loop_exit (SerialMonitor.stop s)) =
        SerialMonitor.latest_entry s) :=
  ⟨rfl, fun _ => rfl, fun _ => rfl, fun _ => rfl⟩

/-- Claim C8: the `data` property is a pure snapshot: it leaves the
monitor state unchanged, returns exactly the buffer contents, and two
snapshots with no intervening append are identical. -/
theorem snapshot_idempotent_pure :
    (∀ s : MonitorState, (SerialMonitor.data s).2 = s) ∧
    (∀ s : MonitorState, (SerialMonitor.data s).1 = s.buf) ∧
    (∀ s : MonitorState,
      (SerialMonitor.data ((SerialMonitor.data s).2)).1 = (SerialMonitor.data s).1) :=
  ⟨fun _ => rfl, fun _ => rfl, fun _ => rfl⟩

/-! ### Matcher lemmas -/

/-- Which groups a token list captures, in order. -/
def groupsOf : List Tok → List (Nat × (Char → Bool))
  | [] => []
  | Tok.group i p :: t => (i, p) :: groupsOf t
  | Tok.lit _ :: t => groupsOf t
  | Tok.star _ :: t => groupsOf t

theorem tryStar_eq_some (k : List Char → Option Caps) :
    ∀ (cr rest : List Char) (caps : Caps), tryStar k cr rest = some caps →
      ∃ u, u <:+ (cr.reverse ++ rest) ∧ k u = some caps := by
  intro cr
  induction cr with
  | nil =>
    intro rest caps h
    simp only [tryStar] at h
    cases hk : k rest with
    | some caps0 =>
      rw [hk] at h
      obtain rfl := Option.some.inj h
      exact ⟨rest, List.suffix_append _ _, hk⟩
    | none => rw [hk] at h; cases h
  | cons c cr' ih =>
    intro rest caps h
    simp only [tryStar] at h
    cases hk : k rest with
    | some caps0 =>
      rw [hk] at h
      obtain rfl := Option.some.inj h
      exact ⟨rest, List.suffix_append _ _, hk⟩
    | none =>
      rw [hk] at h
      obtain ⟨u, hu, hku⟩ := ih (c :: rest) caps h
      refine ⟨u, ?_, hku⟩
      have he : cr'.reverse ++ (c :: rest) = (c :: cr').reverse ++ rest := by
        simp [List.reverse_cons, List.append_assoc]
      rwa [he] at hu

theorem tryGroup_eq_some (i : Nat) (k : List Char → Option Caps) :
    ∀ (cr rest : List Char) (caps : Caps), tryGroup i k cr rest = some caps →
      ∃ g u caps', caps = (i, g) :: caps' ∧ k u = some caps' ∧
        (∀ c ∈ g, c ∈ cr) ∧ (g ++ u) <:+ (cr.reverse ++ rest) := by
  intro cr
  induction cr with
  | nil => intro rest caps h; simp [tryGroup] at h
  | cons c cr' ih =>
    intro rest caps h
    simp only [tryGroup] at h
    cases hk : k rest with
    | some caps0 =>
      rw [hk] at h
      simp only [Option.map_some'] at h
      obtain rfl := Option.some.inj h
      refine ⟨(c :: cr').reverse, rest, caps0, rfl, hk, ?_, List.suffix_refl _⟩
      intro x hx; rwa [List.mem_reverse] at hx
    | none =>
      rw [hk] at h
      simp only [Option.map_none'] at h
      obtain ⟨g, u, caps', hcaps, hku, hmem, hsuf⟩ := ih (c :: rest) caps h
      refine ⟨g, u, caps', hcaps, hku,
        fun x hx => List.mem_cons_of_mem c (hmem x hx), ?_⟩
      have he : cr'.reverse ++ (c :: rest) = (c :: cr').reverse ++ rest := by
        simp [List.reverse_cons, List.append_assoc]
      rwa [he] at hsuf

theorem matchSeq_caps :
    ∀ (toks : List Tok) (s : List Char) (caps : Caps), matchSeq toks s = some caps →
      List.Forall₂ (fun (cap : Nat × List Char) (g : Nat × (Char → Bool)) =>
        cap.1 = g.1 ∧ ∀ c ∈ cap.2, g.2 c = true) caps (groupsOf toks) := by
  intro toks
  induction toks with
  | nil =>
    intro s caps h
    simp only [matchSeq] at h
    obtain rfl := Option.some.inj h
    simp [groupsOf]
  | cons tok toks ih =>
    intro s caps h
    cases tok with
    | lit c =>
      cases s with
      | nil => rw [matchSeq] at h; exact Option.noConfusion h
      | cons c' s' =>
        rw [matchSeq] at h
        by_cases hc : c' = c
        · rw [if_pos hc] at h
          simpa [groupsOf] using ih s' caps h
        · rw [if_neg hc] at h; exact Option.noConfusion h
    | star p =>
      simp only [matchSeq] at h
      obtain ⟨u, _, hku⟩ := tryStar_eq_some _ _ _ _ h
      simpa [groupsOf] using ih u caps hku
    | group i p =>
      simp only [matchSeq] at h
      obtain ⟨g, u, caps', hcaps, hku, hmem, _⟩ := tryGroup_eq_some i _ _ _ _ h
      subst hcaps
      simp only [groupsOf]
      refine List.Forall₂.cons ⟨rfl, ?_⟩ (ih u caps' hku)
      intro c hc
      have hm := hmem c hc
      rw [List.mem_reverse] at hm
      exact List.mem_takeWhile_imp hm

theorem matchSeq_lits_at_head :
    ∀ (w : List Char) (post : List Tok) (s : List Char) (caps : Caps),
      matchSeq (w.map Tok.lit ++ post) s = some caps → w <+: s := by
  intro w
  induction w with
  | nil => intro post s caps _; exact List.nil_prefix
  | cons c w' ih =>
    intro post s caps h
    rw [List.map_cons, List.cons_append] at h
    cases s with
    | nil => rw [matchSeq] at h; exact Option.noConfusion h
    | cons c' s' =>
      rw [matchSeq] at h
      by_cases hc : c' = c
      · rw [if_pos hc] at h
        exact List.cons_prefix_cons.mpr ⟨hc.symm, ih post s' caps h⟩
      · rw [if_neg hc] at h; exact Option.noConfusion h

theorem matchSeq_lits_between :
    ∀ (pre : List Tok) (w : List Char) (post : List Tok) (s : List Char) (caps : Caps),
      matchSeq (pre ++ w.map Tok.lit ++ post) s = some caps → w <:+: s := by
  intro pre
  induction pre with
  | nil =>
    intro w post s caps h
    rw [List.nil_append] at h
    exact (matchSeq_lits_at_head w post s caps h).isInfix
  | cons tok pre' ih =>
    intro w post s caps h
    cases tok with
    | lit c =>
      simp only [List.cons_append] at h
      cases s with
      | nil => rw [matchSeq] at h; exact Option.noConfusion h
      | cons c' s' =>
        rw [matchSeq] at h
        by_cases hc : c' = c
        · rw [if_pos hc] at h
          exact List.infix_cons (ih w post s' caps h)
        · rw [if_neg hc] at h; exact Option.noConfusion h
    | star p =>
      simp only [List.cons_append, matchSeq] at h
      obtain ⟨u, hu, hku⟩ := tryStar_eq_some _ _ _ _ h
      have h2 : u <:+ s := by
        rwa [List.reverse_reverse, List.takeWhile_append_dropWhile] at hu
      exact (ih w post u caps hku).trans h2.isInfix
    | group i p =>
      simp only [List.cons_append, matchSeq] at h
      obtain ⟨g, u, caps', _, hku, _, hsuf⟩ := tryGroup_eq_some i _ _ _ _ h
      have h2 : g ++ u <:+ s := by
        rwa [List.reverse_reverse, List.takeWhile_append_dropWhile] at hsuf
      have h3 : u <:+ s := (List.suffix_append g u).trans h2
      exact (ih w post u caps' hku).trans h3.isInfix

theorem searchFrom_eq_some (toks : List Tok) :
    ∀ (s : List Char) (caps : Caps), searchFrom toks s = some caps →
      ∃ u, u <:+ s ∧ matchSeq toks u = some caps := by
  intro s
  induction s with
  | nil => intro caps h; rw [searchFrom] at h; exact ⟨[], List.suffix_refl [], h⟩
  | cons c s' ih =>
    intro caps h
    rw [searchFrom] at h
    cases hm : matchSeq toks (c :: s') with
    | some caps0 =>
      rw [hm] at h
      obtain rfl := Option.some.inj h
      exact ⟨c :: s', List.suffix_refl _, hm⟩
    | none =>
      rw [hm] at h
      obtain ⟨u, hu, hmu⟩ := ih caps h
      exact ⟨u, hu.trans (List.suffix_cons c s'), hmu⟩

theorem groupsOf_debugToks :
    groupsOf debugToks = [(1, rawCls), (2, sensorCls), (3, keysCls), (4, threshCls)] := rfl

theorem search_caps_shape {s : List Char} {caps : Caps}
    (h : searchFrom debugToks s = some caps) :
    ∃ g1 g2 g3 g4, caps = [(1, g1), (2, g2), (3, g3), (4, g4)] ∧
      (∀ c ∈ g1, rawCls c = true) ∧ (∀ c ∈ g2, sensorCls c = true) ∧
      (∀ c ∈ g3, keysCls c = true) ∧ (∀ c ∈ g4, threshCls c = true) := by
  obtain ⟨u, _, hm⟩ := searchFrom_eq_some debugToks s caps h
  have hf := matchSeq_caps debugToks u caps hm
  rw [groupsOf_debugToks] at hf
  rw [List.forall₂_cons_right_iff] at hf
  obtain ⟨a1, l1, ⟨ha1, hp1⟩, hf, rfl⟩ := hf
  rw [List.forall₂_cons_right_iff] at hf
  obtain ⟨a2, l2, ⟨ha2, hp2⟩, hf, rfl⟩ := hf
  rw [List.forall₂_cons_right_iff] at hf
  obtain ⟨a3, l3, ⟨ha3, hp3⟩, hf, rfl⟩ := hf
  rw [List.forall₂_cons_right_iff] at hf
  obtain ⟨a4, l4, ⟨ha4, hp4⟩, hf, rfl⟩ := hf
  rw [List.forall₂_nil_right_iff] at hf
  subst hf
  have ha1' : a1.1 = 1 := ha1
  have ha2' : a2.1 = 2 := ha2
  have ha3' : a3.1 = 3 := ha3
  have ha4' : a4.1 = 4 := ha4
  have e1 : (1, a1.2) = a1 := by rw [← ha1', Prod.mk.eta]
  have e2 : (2, a2.2) = a2 := by rw [← ha2', Prod.mk.eta]
  have e3 : (3, a3.2) = a3 := by rw [← ha3', Prod.mk.eta]
  have e4 : (4, a4.2) = a4 := by rw [← ha4', Prod.mk.eta]
  exact ⟨a1.2, a2.2, a3.2, a4.2, by rw [e1, e2, e3, e4], hp1, hp2, hp3, hp4⟩

theorem search_labels {s : List Char} {caps : Caps}
    (h : searchFrom debugToks s = some caps) :
    rawLabel.data <:+: s ∧ sensorLabel.data <:+: s ∧ keysLabel.data <:+: s ∧
      threshLabel.data <:+: s ∧ '|' ∈ s := by
  obtain ⟨u, hu, hm⟩ := searchFrom_eq_some debugToks s caps h
  have hlift : ∀ w : List Char, w <:+: u → w <:+: s := fun w hw => hw.trans hu.isInfix
  have e1 : debugToks = [] ++ rawLabel.data.map Tok.lit ++
      ([wsTok, Tok.group 1 rawCls, wsTok, Tok.lit '|', wsTok] ++
        litsOf sensorLabel ++ [wsTok, Tok.group 2 sensorCls, wsTok, Tok.lit '|', wsTok] ++
        litsOf keysLabel ++ [wsTok, Tok.group 3 keysCls, wsTok, Tok.lit '|', wsTok] ++
        litsOf threshLabel ++ [wsTok, Tok.group 4 threshCls]) := rfl
  have e2 : debugToks =
      (litsOf rawLabel ++ [wsTok, Tok.group 1 rawCls, wsTok, Tok.lit '|', wsTok]) ++
      sensorLabel.data.map Tok.lit ++
      ([wsTok, Tok.group 2 sensorCls, wsTok, Tok.lit '|', wsTok] ++
        litsOf keysLabel ++ [wsTok, Tok.group 3 keysCls, wsTok, Tok.lit '|', wsTok] ++
        litsOf threshLabel ++ [wsTok, Tok.group 4 threshCls]) := by
    simp [debugToks, litsOf, List.append_assoc]
  have e3 : debugToks =
      (litsOf rawLabel ++ [wsTok, Tok.group 1 rawCls, wsTok, Tok.lit '|', wsTok] ++
        litsOf sensorLabel ++ [wsTok, Tok.group 2 sensorCls, wsTok, Tok.lit '|', wsTok]) ++
      keysLabel.data.map Tok.lit ++
      ([wsTok, Tok.group 3 keysCls, wsTok, Tok.lit '|', wsTok] ++
        litsOf threshLabel ++ [wsTok, Tok.group 4 threshCls]) := by
    simp [debugToks, litsOf, List.append_assoc]
  have e4 : debugToks =
      (litsOf rawLabel ++ [wsTok, Tok.group 1 rawCls, wsTok, Tok.lit '|', wsTok] ++
        litsOf sensorLabel ++ [wsTok, Tok.group 2 sensorCls, wsTok, Tok.lit '|', wsTok] ++
        litsOf keysLabel ++ [wsTok, Tok.group 3 keysCls, wsTok, Tok.lit '|', wsTok]) ++
      threshLabel.data.map Tok.lit ++ ([wsTok, Tok.group 4 threshCls]) := by
    simp [debugToks, litsOf, List.append_assoc]
  have e5 : debugToks =
      (litsOf rawLabel ++ [wsTok, Tok.group 1 rawCls, wsTok]) ++
      (['|'] : List Char).map Tok.lit ++
      ([wsTok] ++ litsOf sensorLabel ++
        [wsTok, Tok.group 2 sensorCls, wsTok, Tok.lit '|', wsTok] ++
        litsOf keysLabel ++ [wsTok, Tok.group 3 keysCls, wsTok, Tok.lit '|', wsTok] ++
        litsOf threshLabel ++ [wsTok, Tok.group 4 threshCls]) := by
    simp [debugToks, litsOf, List.append_assoc]
  refine ⟨hlift _ (matchSeq_lits_between _ _ _ u caps (e1 ▸ hm)),
          hlift _ (matchSeq_lits_between _ _ _ u caps (e2 ▸ hm)),
          hlift _ (matchSeq_lits_between _ _ _ u caps (e3 ▸ hm)),
          hlift _ (matchSeq_lits_between _ _ _ u caps (e4 ▸ hm)), ?_⟩
  have hbar : (['|'] : List Char) <:+: s :=
    hlift _ (matchSeq_lits_between _ _ _ u caps (e5 ▸ hm))
  exact List.singleton_sublist.mp hbar.sublist

/-! ### Token and number lemmas -/

theorem mapOpt_length {α β : Type _} (f : α → Option β) :
    ∀ (l : List α) (r : List β), mapOpt f l = some r → r.length = l.length := by
  intro l
  induction l with
  | nil =>
    intro r h
    simp only [mapOpt] at h
    obtain rfl := Option.some.inj h
    rfl
  | cons a l ih =>
    intro r h
    simp only [mapOpt] at h
    cases hfa : f a with
    | none => rw [hfa] at h; exact Option.noConfusion h
    | some b =>
      rw [hfa] at h
      cases hml : mapOpt f l with
      | none => rw [hml] at h; exact Option.noConfusion h
      | some r' =>
        rw [hml] at h
        obtain rfl := Option.some.inj h
        simp [ih r' hml]

theorem mapOpt_eq_none_of_mem {α β : Type _} (f : α → Option β) :
    ∀ (l : List α) (x : α), x ∈ l → f x = none → mapOpt f l = none := by
  intro l
  induction l with
  | nil => intro x hx; cases hx
  | cons a l ih =>
    intro x hx hfx
    simp only [mapOpt]
    rcases List.mem_cons.mp hx with rfl | hx
    · rw [hfx]
    · rw [ih x hx hfx]
      cases f a <;> rfl

theorem mapOpt_mem {α β : Type _} (f : α → Option β) :
    ∀ (l : List α) (r : List β), mapOpt f l = some r →
      ∀ b ∈ r, ∃ a ∈ l, f a = some b := by
  intro l
  induction l with
  | nil =>
    intro r h b hb
    simp only [mapOpt] at h
    obtain rfl := Option.some.inj h
    cases hb
  | cons a l ih =>
    intro r h b hb
    simp only [mapOpt] at h
    cases hfa : f a with
    | none => rw [hfa] at h; exact Option.noConfusion h
    | some b0 =>
      rw [hfa] at h
      cases hml : mapOpt f l with
      | none => rw [hml] at h; exact Option.noConfusion h
      | some r' =>
        rw [hml] at h
        obtain rfl := Option.some.inj h
        rcases List.mem_cons.mp hb with rfl | hb
        · exact ⟨a, List.mem_cons_self a l, hfa⟩
        · obtain ⟨a', ha', hfa'⟩ := ih r' hml b hb
          exact ⟨a', List.mem_cons_of_mem a ha', hfa'⟩

theorem pySplit_mem_subset (sep : Char) :
    ∀ (s x : List Char), x ∈ pySplit sep s → ∀ c ∈ x, c ∈ s := by
  intro s
  induction s with
  | nil =>
    intro x hx c hc
    simp only [pySplit, List.mem_singleton] at hx
    subst hx
    cases hc
  | cons c0 s' ih =>
    intro x hx c hc
    simp only [pySplit] at hx
    by_cases hsep : c0 = sep
    · rw [if_pos hsep] at hx
      rcases List.mem_cons.mp hx with rfl | hx
      · cases hc
      · exact List.mem_cons_of_mem c0 (ih x hx c hc)
    · rw [if_neg hsep] at hx
      cases hr : pySplit sep s' with
      | nil => rw [hr] at hx; rw [List.mem_singleton] at hx; subst hx;
               rw [List.mem_singleton] at hc; subst hc; exact List.mem_cons_self _ _
      | cons hd tl =>
        rw [hr] at hx
        rcases List.mem_cons.mp hx with rfl | hx
        · rcases List.mem_cons.mp hc with rfl | hc
          · exact List.mem_cons_self _ _
          · have : hd ∈ pySplit sep s' := by rw [hr]; exact List.mem_cons_self _ _
            exact List.mem_cons_of_mem c0 (ih hd this c hc)
        · have : x ∈ pySplit sep s' := by rw [hr]; exact List.mem_cons_of_mem hd hx
          exact List.mem_cons_of_mem c0 (ih x this c hc)

theorem mem_pyStrip {c : Char} {s : List Char} (h : c ∈ pyStrip s) : c ∈ s := by
  rw [pyStrip, List.mem_reverse] at h
  have h2 : c ∈ (s.dropWhile isPySpace).reverse :=
    (List.dropWhile_sublist _).mem h
  rw [List.mem_reverse] at h2
  exact (List.dropWhile_sublist _).mem h2

theorem mkRat_nonneg_of_num {n : Int} (hn : 0 ≤ n) (d : Nat) : 0 ≤ mkRat n d := by
  rw [Rat.mkRat_eq_div]
  positivity

theorem pyInt_nonneg {s : List Char} (hs : ∀ c ∈ s, c ≠ '-') {v : Int}
    (h : pyInt s = some v) : 0 ≤ v := by
  rw [pyInt] at h
  split at h
  · exact Option.noConfusion h
  · rename_i ds heq
    split at h
    · obtain rfl := Option.some.inj h
      positivity
    · exact Option.noConfusion h
  · rename_i ds heq
    exfalso
    have : '-' ∈ pyStrip s := by rw [heq]; exact List.mem_cons_self _ _
    exact hs '-' (mem_pyStrip this) rfl
  · rename_i h1 h2 h3
    split at h
    · obtain rfl := Option.some.inj h
      positivity
    · exact Option.noConfusion h

theorem pyFloatCore_num_nonneg {u : List Char} {p : Int × Nat}
    (h : pyFloatCore u = some p) : 0 ≤ p.1 := by
  rw [pyFloatCore] at h
  split at h
  · split at h
    · obtain rfl := Option.some.inj h
      positivity
    · exact Option.noConfusion h
  · split at h
    · obtain rfl := Option.some.inj h
      positivity
    · exact Option.noConfusion h
  · exact Option.noConfusion h

theorem pyFloat_nonneg {s : List Char} (hs : ∀ c ∈ s, c ≠ '-') {q : ℚ}
    (h : pyFloat s = some q) : 0 ≤ q := by
  rw [pyFloat] at h
  split at h
  · exact Option.noConfusion h
  · rename_i u heq
    cases hc : pyFloatCore u with
    | none => rw [hc] at h; exact Option.noConfusion h
    | some p =>
      rw [hc] at h
      simp only [Option.map_some'] at h
      obtain rfl := Option.some.inj h
      exact mkRat_nonneg_of_num (pyFloatCore_num_nonneg hc) _
  · rename_i u heq
    exfalso
    have : '-' ∈ pyStrip s := by rw [heq]; exact List.mem_cons_self _ _
    exact hs '-' (mem_pyStrip this) rfl
  · rename_i h1 h2 h3
    cases hc : pyFloatCore (pyStrip s) with
    | none => rw [hc] at h; exact Option.noConfusion h
    | some p =>
      rw [hc] at h
      simp only [Option.map_some'] at h
      obtain rfl := Option.some.inj h
      exact mkRat_nonneg_of_num (pyFloatCore_num_nonneg hc) _

/-! ### Parser-level lemmas -/

theorem parse_eq_of_search {s g1 g2 g3 g4 : List Char}
    (hsearch : searchFrom debugToks (clean_message s) =
      some [(1, g1), (2, g2), (3, g3), (4, g4)]) :
    parse_debug_message s =
      (match mapOpt (fun x => pyInt (pyStrip x)) (pySplit ',' g1),
             mapOpt (fun x => pyFloat (pyStrip x)) (pySplit ',' g2),
             pyFloat g4 with
       | some raw_values, some sensor_values, some threshold =>
         if raw_values.length = 4 ∧ sensor_values.length = 4 ∧
             ((pySplit ',' g3).map (fun x => decide (pyStrip x = ['1']))).length = 4 then
           some ⟨raw_values, sensor_values,
                 (pySplit ',' g3).map (fun x => decide (pyStrip x = ['1'])), threshold⟩
         else none
       | _, _, _ => none) := by
  rw [parse_debug_message, hsearch]
  rfl

theorem parse_some_unfold {s : List Char} {d : TaikoDebugData}
    (h : parse_debug_message s = some d) :
    ∃ (g1 g2 g3 g4 : List Char) (raw_values : List Int) (sensor_values : List ℚ)
      (threshold : ℚ),
      searchFrom debugToks (clean_message s) =
        some [(1, g1), (2, g2), (3, g3), (4, g4)] ∧
      (∀ c ∈ g1, rawCls c = true) ∧ (∀ c ∈ g2, sensorCls c = true) ∧
      (∀ c ∈ g3, keysCls c = true) ∧ (∀ c ∈ g4, threshCls c = true) ∧
      mapOpt (fun x => pyInt (pyStrip x)) (pySplit ',' g1) = some raw_values ∧
      mapOpt (fun x => pyFloat (pyStrip x)) (pySplit ',' g2) = some sensor_values ∧
      pyFloat g4 = some threshold ∧
      raw_values.length = 4 ∧ sensor_values.length = 4 ∧
      ((pySplit ',' g3).map (fun x => decide (pyStrip x = ['1']))).length = 4 ∧
      d = ⟨raw_values, sensor_values,
           (pySplit ',' g3).map (fun x => decide (pyStrip x = ['1'])), threshold⟩ := by
  cases hsearch : searchFrom debugToks (clean_message s) with
  | none => rw [parse_debug_message, hsearch] at h; exact Option.noConfusion h
  | some caps =>
    obtain ⟨g1, g2, g3, g4, rfl, hc1, hc2, hc3, hc4⟩ := search_caps_shape hsearch
    rw [parse_eq_of_search hsearch] at h
    cases hraw : mapOpt (fun x => pyInt (pyStrip x)) (pySplit ',' g1) with
    | none => rw [hraw] at h; exact Option.noConfusion h
    | some raw_values =>
      rw [hraw] at h
      cases hsens : mapOpt (fun x => pyFloat (pyStrip x)) (pySplit ',' g2) with
      | none => rw [hsens] at h; exact Option.noConfusion h
      | some sensor_values =>
        rw [hsens] at h
        cases hth : pyFloat g4 with
        | none => rw [hth] at h; exact Option.noConfusion h
        | some threshold =>
          rw [hth] at h
          split at h
          · rename_i hre hse hte
            obtain rfl := Option.some.inj hre
            obtain rfl := Option.some.inj hse
            obtain rfl := Option.some.inj hte
            by_cases hcond : raw_values.length = 4 ∧ sensor_values.length = 4 ∧
                ((pySplit ',' g3).map (fun x => decide (pyStrip x = ['1']))).length = 4
            · rw [if_pos hcond] at h
              obtain rfl := Option.some.inj h
              exact ⟨g1, g2, g3, g4, raw_values, sensor_values, threshold, rfl,
                hc1, hc2, hc3, hc4, hraw, hsens, hth,
                hcond.1, hcond.2.1, hcond.2.2, rfl⟩
            · rw [if_neg hcond] at h
              exact Option.noConfusion h
          · rename_i himp
            exact (himp raw_values sensor_values threshold rfl rfl rfl).elim

/-- Claim C5: the parser is total and deterministic: on every input it
returns either a reading or the failure value `none` (exceptions inside
are caught and mapped to `none`, which the shallow embedding realises as
a total function into `Option`), equal inputs give equal results, and a
returned reading is never partially populated: all three lists have
length 4. -/
theorem parse_total_deterministic :
    (∀ s : List Char,
      parse_debug_message s = none ∨ ∃ d, parse_debug_message s = some d) ∧
    (∀ s t : List Char, s = t → parse_debug_message s = parse_debug_message t) ∧
    (∀ (s : List Char) (d : TaikoDebugData), parse_debug_message s = some d →
      d.raw_values.length = 4 ∧ d.sensor_values.length = 4 ∧
        d.key_states.length = 4) := by
  refine ⟨fun s => ?_, fun s t h => by rw [h], fun s d h => ?_⟩
  · cases h : parse_debug_message s with
    | none => exact Or.inl rfl
    | some d => exact Or.inr ⟨d, rfl⟩
  · obtain ⟨g1, g2, g3, g4, raw_values, sensor_values, threshold, _, _, _, _, _,
      _, _, _, hl1, hl2, hl3, rfl⟩ := parse_some_unfold h
    exact ⟨hl1, hl2, hl3⟩

/-- Witness for C5: determinism applied at a concrete input. -/
theorem parse_total_deterministic_witness :
    parse_debug_message garbageSrc.data = parse_debug_message garbageSrc.data :=
  parse_total_deterministic.2.1 garbageSrc.data garbageSrc.data rfl

/-- Claim C7: the spec's concrete frame parses to
rawValues = [193, 187, 193, 196], sensorValues = [1.0, 4.2, 1.0, 3.3],
keyStates = [true, true, true, true], threshold = 0.0; the sentinel
glyph `★` is stripped and carries no data. -/
theorem parse_concrete_scenario :
    parse_debug_message c7line = some sampleReading := by
  rw [sampleReading_eq]
  decide

/-- Claim C10: the pattern's character classes admit no sign characters,
so a frame with a signed RAW token fails to parse, and no reading ever
returned by the parser contains a negative raw value, sensor value or
threshold. -/
theorem parse_rejects_signed_tokens :
    parse_debug_message negRawSrc.data = none ∧
    (∀ (s : List Char) (d : TaikoDebugData), parse_debug_message s = some d →
      (∀ v ∈ d.raw_values, 0 ≤ v) ∧ (∀ q ∈ d.sensor_values, 0 ≤ q) ∧
        0 ≤ d.threshold) := by
  constructor
  · decide
  · intro s d h
    obtain ⟨g1, g2, g3, g4, raw_values, sensor_values, threshold, _,
      hc1, hc2, hc3, hc4, hraw, hsens, hth, _, _, _, rfl⟩ := parse_some_unfold h
    refine ⟨?_, ?_, ?_⟩
    · intro v hv
      obtain ⟨x, hx, hpx⟩ := mapOpt_mem _ _ _ hraw v hv
      refine pyInt_nonneg ?_ hpx
      intro c hc hceq
      subst hceq
      have hcg : '-' ∈ g1 := pySplit_mem_subset ',' g1 x hx '-' (mem_pyStrip hc)
      exact absurd (hc1 '-' hcg) (by decide)
    · intro q hq
      obtain ⟨x, hx, hpx⟩ := mapOpt_mem _ _ _ hsens q hq
      refine pyFloat_nonneg ?_ hpx
      intro c hc hceq
      subst hceq
      have hcg : '-' ∈ g2 := pySplit_mem_subset ',' g2 x hx '-' (mem_pyStrip hc)
      exact absurd (hc2 '-' hcg) (by decide)
    · refine pyFloat_nonneg ?_ hth
      intro c hc hceq
      subst hceq
      exact absurd (hc4 '-' hc) (by decide)

/-- Witness for C10: the non-negativity consequence instantiated at the
concrete frame of the spec scenario. -/
theorem parse_rejects_signed_tokens_witness : 0 ≤ sampleReading.threshold :=
  (parse_rejects_signed_tokens.2 c7line sampleReading
    (by rw [sampleReading_eq]; decide)).2.2

/-- If the pattern matched but a group conversion cannot possibly
succeed (a failing integer list, float list or threshold float, or any
successful conversions violating the length-4 check), the parser
returns `none`. -/
theorem parse_none_of_bad {s g1 g2 g3 g4 : List Char}
    (hsearch : searchFrom debugToks (clean_message s) =
      some [(1, g1), (2, g2), (3, g3), (4, g4)])
    (hbad : mapOpt (fun x => pyInt (pyStrip x)) (pySplit ',' g1) = none ∨
      mapOpt (fun x => pyFloat (pyStrip x)) (pySplit ',' g2) = none ∨
      pyFloat g4 = none ∨
      (∀ (rv : List Int) (sv : List ℚ) (tv : ℚ),
        mapOpt (fun x => pyInt (pyStrip x)) (pySplit ',' g1) = some rv →
        mapOpt (fun x => pyFloat (pyStrip x)) (pySplit ',' g2) = some sv →
        pyFloat g4 = some tv →
        ¬(rv.length = 4 ∧ sv.length = 4 ∧
          ((pySplit ',' g3).map (fun x => decide (pyStrip x = ['1']))).length = 4))) :
    parse_debug_message s = none := by
  rw [parse_eq_of_search hsearch]
  cases hraw : mapOpt (fun x => pyInt (pyStrip x)) (pySplit ',' g1) with
  | none => rfl
  | some rv =>
    cases hsens : mapOpt (fun x => pyFloat (pyStrip x)) (pySplit ',' g2) with
    | none => rfl
    | some sv =>
      cases hth : pyFloat g4 with
      | none => rfl
      | some tv =>
        rcases hbad with hb | hb | hb | hb
        · rw [hraw] at hb; exact Option.noConfusion hb
        · rw [hsens] at hb; exact Option.noConfusion hb
        · rw [hth] at hb; exact Option.noConfusion hb
        · show (if rv.length = 4 ∧ sv.length = 4 ∧
              ((pySplit ',' g3).map (fun x => decide (pyStrip x = ['1']))).length = 4 then
              some (⟨rv, sv, (pySplit ',' g3).map (fun x => decide (pyStrip x = ['1'])),
                tv⟩ : TaikoDebugData)
            else none) = none
          exact if_neg (hb rv sv tv hraw hsens hth)

/-- Claim C2 (amended): parse rejection is total for missing labelled
groups, wrong comma-token counts, and lexically invalid numeric tokens,
and no partially populated reading is ever returned; however a KEYS
token made of the characters 0/1 that is not exactly `1` (such as `10`)
is NOT rejected: it is stored as the key state `false` (only a token
whose stripped text is exactly `1` is `true`). -/
theorem parse_rejection_amended :
    (∀ s : List Char,
      (¬(rawLabel.data <:+: clean_message s) ∨
       ¬(sensorLabel.data <:+: clean_message s) ∨
       ¬(keysLabel.data <:+: clean_message s) ∨
       ¬(threshLabel.data <:+: clean_message s)) →
      parse_debug_message s = none) ∧
    (∀ (s : List Char) (caps : Caps) (g : List Char),
      searchFrom debugToks (clean_message s) = some caps →
      ((caps.lookup 1 = some g ∧ (pySplit ',' g).length ≠ 4) ∨
       (caps.lookup 2 = some g ∧ (pySplit ',' g).length ≠ 4) ∨
       (caps.lookup 3 = some g ∧ (pySplit ',' g).length ≠ 4)) →
      parse_debug_message s = none) ∧
    (∀ (s : List Char) (caps : Caps) (g x : List Char),
      searchFrom debugToks (clean_message s) = some caps →
      ((caps.lookup 1 = some g ∧ x ∈ pySplit ',' g ∧ pyInt (pyStrip x) = none) ∨
       (caps.lookup 2 = some g ∧ x ∈ pySplit ',' g ∧ pyFloat (pyStrip x) = none) ∨
       (caps.lookup 4 = some g ∧ pyFloat g = none)) →
      parse_debug_message s = none) ∧
    (∀ (s : List Char) (d : TaikoDebugData), parse_debug_message s = some d →
      d.raw_values.length = 4 ∧ d.sensor_values.length = 4 ∧
        d.key_states.length = 4) := by
  refine ⟨fun s hmiss => ?_, fun s caps g hsearch hcase => ?_,
    fun s caps g x hsearch hcase => ?_, fun s d h => ?_⟩
  · cases hsearch : searchFrom debugToks (clean_message s) with
    | none => rw [parse_debug_message, hsearch]
    | some caps =>
      exfalso
      obtain ⟨h1, h2, h3, h4, _⟩ := search_labels hsearch
      rcases hmiss with hm | hm | hm | hm
      exacts [hm h1, hm h2, hm h3, hm h4]
  · obtain ⟨g1, g2, g3, g4, rfl, _, _, _, _⟩ := search_caps_shape hsearch
    rcases hcase with ⟨hlk, hlen⟩ | ⟨hlk, hlen⟩ | ⟨hlk, hlen⟩
    · obtain rfl : g1 = g := Option.some.inj hlk
      cases hraw : mapOpt (fun x => pyInt (pyStrip x)) (pySplit ',' g1) with
      | none => exact parse_none_of_bad hsearch (Or.inl hraw)
      | some rv =>
        refine parse_none_of_bad hsearch (Or.inr (Or.inr (Or.inr ?_)))
        intro rv' sv tv hraw' _ _ hcond
        obtain rfl : rv = rv' := Option.some.inj (hraw ▸ hraw')
        exact hlen ((mapOpt_length _ _ _ hraw).symm.trans hcond.1)
    · obtain rfl : g2 = g := Option.some.inj hlk
      cases hsens : mapOpt (fun x => pyFloat (pyStrip x)) (pySplit ',' g2) with
      | none => exact parse_none_of_bad hsearch (Or.inr (Or.inl hsens))
      | some sv =>
        refine parse_none_of_bad hsearch (Or.inr (Or.inr (Or.inr ?_)))
        intro rv' sv' tv _ hsens' _ hcond
        obtain rfl : sv = sv' := Option.some.inj (hsens ▸ hsens')
        exact hlen ((mapOpt_length _ _ _ hsens).symm.trans hcond.2.1)
    · obtain rfl : g3 = g := Option.some.inj hlk
      refine parse_none_of_bad hsearch (Or.inr (Or.inr (Or.inr ?_)))
      intro rv sv tv _ _ _ hcond
      rw [List.length_map] at hcond
      exact hlen hcond.2.2
  · obtain ⟨g1, g2, g3, g4, rfl, _, _, _, _⟩ := search_caps_shape hsearch
    rcases hcase with ⟨hlk, hx, hbad⟩ | ⟨hlk, hx, hbad⟩ | ⟨hlk, hbad⟩
    · obtain rfl : g1 = g := Option.some.inj hlk
      exact parse_none_of_bad hsearch
        (Or.inl (mapOpt_eq_none_of_mem _ _ x hx hbad))
    · obtain rfl : g2 = g := Option.some.inj hlk
      exact parse_none_of_bad hsearch
        (Or.inr (Or.inl (mapOpt_eq_none_of_mem _ _ x hx hbad)))
    · obtain rfl : g4 = g := Option.some.inj hlk
      exact parse_none_of_bad hsearch (Or.inr (Or.inr (Or.inl hbad)))
  · obtain ⟨g1, g2, g3, g4, raw_values, sensor_values, threshold, _, _, _, _, _,
      _, _, _, hl1, hl2, hl3, rfl⟩ := parse_some_unfold h
    exact ⟨hl1, hl2, hl3⟩

/-- Witness for C2: the missing-label clause applied to the spec's
`garbage no markers here` line. -/
theorem parse_rejection_amended_witness :
    parse_debug_message garbageSrc.data = none :=
  parse_rejection_amended.1 garbageSrc.data (Or.inl (by decide))

/-- The reading produced for `keys10src` (KEYS token `10` coerced to
`false`). -/
def keys10Reading : TaikoDebugData :=
  ⟨[1, 2, 3, 4], [1, 2, 3, 4], [false, true, true, true], 1 / 2⟩

/-- `keys10Reading` with every rational in kernel-evaluable form. -/
theorem keys10Reading_eq :
    keys10Reading = ⟨[1, 2, 3, 4], [mkRat 1 1, mkRat 2 1, mkRat 3 1, mkRat 4 1],
      [false, true, true, true], mkRat 1 2⟩ := by
  simp only [keys10Reading]
  norm_num [Rat.mkRat_eq_div]

/-- Counterexample to claim C2 as stated: a line whose KEYS group
contains the token `10` — not exactly the character `0` or `1` — parses
SUCCESSFULLY (the token is coerced to `false`), instead of returning the
failure value. -/
theorem parse_keys_token_not_rejected :
    parse_debug_message keys10src.data = some keys10Reading := by
  rw [keys10Reading_eq]
  decide

/-! ### Rendering produces no pipe character -/

theorem decDigitChar_ne_pipe (n : Nat) (hn : n < 10) : decDigitChar n ≠ '|' := by
  interval_cases n <;> decide

theorem natCharsAux_ne_pipe :
    ∀ (fuel n : Nat) (acc : List Char), (∀ c ∈ acc, c ≠ '|') →
      ∀ c ∈ natCharsAux fuel n acc, c ≠ '|' := by
  intro fuel
  induction fuel with
  | zero => intro n acc hacc c hc; rw [natCharsAux] at hc; exact hacc c hc
  | succ fuel ih =>
    intro n acc hacc c hc
    rw [natCharsAux] at hc
    by_cases hn : n < 10
    · rw [if_pos hn] at hc
      rcases List.mem_cons.mp hc with rfl | hc
      · exact decDigitChar_ne_pipe n hn
      · exact hacc c hc
    · rw [if_neg hn] at hc
      refine ih (n / 10) _ ?_ c hc
      intro c' hc'
      rcases List.mem_cons.mp hc' with rfl | hc'
      · exact decDigitChar_ne_pipe _ (Nat.mod_lt n (by norm_num))
      · exact hacc c' hc'

theorem natChars_ne_pipe (n : Nat) : ∀ c ∈ natChars n, c ≠ '|' :=
  natCharsAux_ne_pipe (n + 1) n [] (fun c hc => absurd hc (List.not_mem_nil c))

theorem intChars_ne_pipe (v : Int) : ∀ c ∈ intChars v, c ≠ '|' := by
  rw [intChars]
  split
  · intro c hc
    rcases List.mem_cons.mp hc with rfl | hc
    · decide
    · exact natChars_ne_pipe _ c hc
  · exact natChars_ne_pipe _

theorem padLeft_ne_pipe {s : List Char} (hs : ∀ c ∈ s, c ≠ '|') (w : Nat) :
    ∀ c ∈ padLeft w s, c ≠ '|' := by
  intro c hc
  rw [padLeft] at hc
  rcases List.mem_append.mp hc with hc | hc
  · obtain rfl := List.eq_of_mem_replicate hc
    decide
  · exact hs c hc

theorem fixed2_ne_pipe (q : ℚ) : ∀ c ∈ fixed2 q, c ≠ '|' := by
  intro c hc
  rw [fixed2] at hc
  rcases List.mem_append.mp hc with hc | hc
  · rcases List.mem_append.mp hc with hc | hc
    · rcases List.mem_append.mp hc with hc | hc
      · by_cases hq : q.num < 0
        · rw [if_pos hq, List.mem_singleton] at hc
          subst hc
          decide
        · rw [if_neg hq] at hc
          cases hc
      · exact natChars_ne_pipe _ c hc
    · rw [List.mem_singleton] at hc
      subst hc
      decide
  · by_cases hm : fixed2Scaled q % 100 < 10
    · rw [if_pos hm] at hc
      rcases List.mem_cons.mp hc with rfl | hc
      · decide
      · exact natChars_ne_pipe _ c hc
    · rw [if_neg hm] at hc
      exact natChars_ne_pipe _ c hc

theorem joinComma_ne_pipe :
    ∀ ls : List (List Char), (∀ x ∈ ls, ∀ c ∈ x, c ≠ '|') →
      ∀ c ∈ joinComma ls, c ≠ '|' := by
  intro ls
  induction ls with
  | nil => intro _ c hc; rw [joinComma] at hc; cases hc
  | cons x ys ih =>
    intro hls c hc
    cases ys with
    | nil =>
      rw [joinComma] at hc
      exact hls x (List.mem_singleton_self x) c hc
    | cons y t =>
      rw [joinComma] at hc
      rcases List.mem_append.mp hc with hc | hc
      · exact hls x (List.mem_cons_self _ _) c hc
      · rcases List.mem_cons.mp hc with rfl | hc
        · decide
        · rcases List.mem_cons.mp hc with rfl | hc
          · decide
          · exact ih (fun z hz => hls z (List.mem_cons_of_mem x hz)) c hc

theorem renderStr_ne_pipe (d : TaikoDebugData) : ∀ c ∈ renderStr d, c ≠ '|' := by
  intro c hc
  simp only [renderStr, List.mem_append] at hc
  have hlit1 : ∀ c' ∈ rawOpen.data, c' ≠ '|' := by decide
  have hlit2 : ∀ c' ∈ closeSp.data, c' ≠ '|' := by decide
  have hlit3 : ∀ c' ∈ sensorOpen.data, c' ≠ '|' := by decide
  have hlit4 : ∀ c' ∈ keysOpen.data, c' ≠ '|' := by decide
  have hlit5 : ∀ c' ∈ threshClose.data, c' ≠ '|' := by decide
  rcases hc with ((((((((hc | hc) | hc) | hc) | hc) | hc) | hc) | hc) | hc) | hc
  · exact hlit1 c hc
  · refine joinComma_ne_pipe _ ?_ c hc
    intro xx hxx
    obtain ⟨v, _, rfl⟩ := List.mem_map.mp hxx
    exact padLeft_ne_pipe (intChars_ne_pipe v) 3
  · exact hlit2 c hc
  · exact hlit3 c hc
  · refine joinComma_ne_pipe _ ?_ c hc
    intro xx hxx
    obtain ⟨q, _, rfl⟩ := List.mem_map.mp hxx
    exact padLeft_ne_pipe (fixed2_ne_pipe q) 6
  · exact hlit2 c hc
  · exact hlit4 c hc
  · obtain ⟨b, _, rfl⟩ := List.mem_map.mp hc
    cases b <;> decide
  · exact hlit5 c hc
  · exact padLeft_ne_pipe (fixed2_ne_pipe d.threshold) 6 c hc

/-- Claim C6 (amended): the human-readable rendering `__str__` is not a
wire-format frame: it contains no `|` separators, so re-parsing any
rendered reading yields the failure value, not a round-tripped reading
(parsing itself stays deterministic, cf. the C5 theorem). -/
theorem render_not_reparseable :
    ∀ d : TaikoDebugData, parse_debug_message (renderStr d) = none := by
  intro d
  cases hsearch : searchFrom debugToks (clean_message (renderStr d)) with
  | none => rw [parse_debug_message, hsearch]
  | some caps =>
    exfalso
    have hbar := (search_labels hsearch).2.2.2.2
    rw [clean_message] at hbar
    have h3 := mem_pyStrip hbar
    exact renderStr_ne_pipe d '|' (List.mem_filter.mp h3).1 rfl

/-- Counterexample to claim C6 as stated: the spec's concrete frame
parses to `sampleReading`, but re-rendering that reading with `__str__`
and re-parsing does NOT succeed — it returns the failure value, so no
field round-trips. -/
theorem roundtrip_fails_concrete :
    parse_debug_message c7line = some sampleReading ∧
    parse_debug_message (renderStr sampleReading) = none := by
  constructor
  · rw [sampleReading_eq]; decide
  · rw [sampleReading_eq]; decide

/-! ### Decode-failure behaviour -/

theorem utf8_decode_ignore_ascii_cons (b : Nat) (hb : b ≤ 0x7F) :
    ∀ tail : List Nat,
      utf8_decode_ignore (b :: tail) = b :: utf8_decode_ignore tail := by
  intro tail
  rcases tail with _ | ⟨b2, _ | ⟨b3, _ | ⟨b4, rest⟩⟩⟩ <;>
    simp [utf8_decode_ignore, hb]

theorem decode_append_ff_ascii :
    ∀ bs : List Nat, (∀ b ∈ bs, b ≤ 0x7F) →
      utf8_decode_ignore (bs ++ [0xFF]) = utf8_decode_ignore bs := by
  intro bs
  induction bs with
  | nil => intro _; decide
  | cons b rest ih =>
    intro hb
    have hb0 : b ≤ 0x7F := hb b (List.mem_cons_self _ _)
    rw [List.cons_append, utf8_decode_ignore_ascii_cons b hb0,
        utf8_decode_ignore_ascii_cons b hb0,
        ih (fun x hx => hb x (List.mem_cons_of_mem b hx))]

/-- Claim C3 (amended): a line containing undecodable bytes is NOT
discarded: only the offending bytes are dropped (`errors='ignore'`) and
the remaining text is processed normally — appending an invalid byte
such as `0xFF` to any ASCII line leaves the stored result unchanged, and
a grammar-matching line carrying an invalid byte still stores a
reading. -/
theorem decode_drops_bytes_not_lines :
    (∀ bs : List Nat, (∀ b ∈ bs, b ≤ 0x7F) →
      process_line (bs ++ [0xFF]) = process_line bs) ∧
    process_line badByteLine = some sampleReading := by
  constructor
  · intro bs hb
    simp only [process_line]
    rw [decode_append_ff_ascii bs hb]
  · rw [sampleReading_eq]; decide

/-- Witness for C3's amended statement: the invariance under an appended
invalid byte at the concrete bytes of `RAW`. -/
theorem decode_drops_bytes_not_lines_witness :
    process_line ([0x52, 0x41, 0x57] ++ [0xFF]) = process_line [0x52, 0x41, 0x57] :=
  decode_drops_bytes_not_lines.1 [0x52, 0x41, 0x57] (by decide)

/-- Counterexample to claim C3 as stated: `badByteLine` contains a byte
sequence that is not valid UTF-8, yet a reading derived from that line
IS stored. -/
theorem invalid_bytes_line_still_stored :
    valid_utf8 badByteLine = false ∧ process_line badByteLine = some sampleReading := by
  refine ⟨by decide, ?_⟩
  rw [sampleReading_eq]
  decide
